import Mathlib

/-!
Shallow embedding of the Network-File-Share HTTP file server (Go, single
file `R1_EN.go`, with an earlier variant in `part_000`).

The server maps a request URL path to a filesystem path via
`strings.TrimPrefix(reqPath, "/")`, `filepath.Clean`, `filepath.Join(rootDir, ...)`,
then opens the target and dispatches: directories are rendered as an HTML
listing (`listDir`), regular files are streamed as attachments (`sendFile`).

The path functions below are faithful translations of the Go standard
library routines used by the server, specialized to Unix path semantics
(`filepath.Separator = '/'`), which is the platform the server targets.
Strings are modelled as Lean `String`s; the Go functions operate on bytes,
and on UTF-8 input the two agree segment-by-segment.
-/

/-- True iff the path (as a character list) begins with the separator `'/'`,
i.e. `rooted` in the Go `filepath.Clean` algorithm. -/
def isRooted : List Char → Bool
  | [] => false
  | c :: _ => c == '/'

/-- Split a character list into its `'/'`-separated segments (the segment
stream that Go's `filepath.Clean` consumes byte by byte). Splitting the
empty list yields one empty segment, matching `strings.Split`. -/
def splitSegs : List Char → List String
  | [] => [""]
  | c :: rest =>
    if c = '/' then "" :: splitSegs rest
    else
      match splitSegs rest with
      | s :: ss => String.mk (c :: s.data) :: ss
      | [] => [String.mk [c]]

/-- Join segments with the separator `'/'` (inverse of `splitSegs` on
slash-free segments); used to rebuild the cleaned path. -/
def joinSegs : List String → String
  | [] => ""
  | [s] => s
  | s :: rest => s ++ "/" ++ joinSegs rest

/-- One step of Go `filepath.Clean`'s element processing, acting on the
output stack (head = most recent element):
empty and `.` segments are dropped; `..` pops the last element when one is
poppable, accumulates for relative paths, and is discarded at the root for
rooted paths; every other segment is appended. -/
def cleanStep (rooted : Bool) (acc : List String) (seg : String) : List String :=
  if seg = "" ∨ seg = "." then acc
  else if seg = ".." then
    match acc with
    | [] => if rooted then [] else [".."]
    | top :: rest => if top = ".." then ".." :: top :: rest else rest
  else seg :: acc

/-- Go `filepath.Clean` for Unix paths: shortest lexically-equivalent path.
Empty input yields `"."`; rooted results keep the leading `'/'`; a relative
path whose elements all cancel yields `"."`. -/
def filepathClean (path : String) : String :=
  if path = "" then "."
  else
    let rooted := isRooted path.data
    let stack := (splitSegs path.data).foldl (cleanStep rooted) []
    let body := joinSegs stack.reverse
    if rooted then "/" ++ body
    else if body = "" then "." else body

/-- Go `strings.TrimPrefix(s, "/")` as used in the handler: remove one
leading separator if present. -/
def trimLeadingSlash (s : String) : String :=
  match s.data with
  | '/' :: rest => String.mk rest
  | _ => s

/-- Go `filepath.Join(a, b)`: skip empty elements, join the rest with the
separator, and `Clean` the result. -/
def filepathJoin (a b : String) : String :=
  if a ≠ "" then filepathClean (a ++ "/" ++ b)
  else if b ≠ "" then filepathClean b
  else ""

/-- Go `filepath.ToSlash`: the identity on Unix, where the path separator
already is `'/'`. -/
def toSlash (s : String) : String := s

/-- Go `filepath.Dir`: drop the final element (the maximal trailing run of
non-separator characters) and `Clean` what remains. -/
def filepathDir (path : String) : String :=
  filepathClean (String.mk (path.data.reverse.dropWhile (fun c => c != '/')).reverse)

/-- Go `filepath.Base`: strip trailing separators and return the last
element; `"."` for the empty path, `"/"` for an all-separator path. -/
def filepathBase (path : String) : String :=
  if path = "" then "."
  else
    let stripped := path.data.reverse.dropWhile (fun c => c == '/')
    if stripped = [] then "/"
    else String.mk ((stripped.takeWhile (fun c => c != '/')).reverse)

/-- Lines 129–130 of the handler: `path := strings.TrimPrefix(reqPath, "/")`
followed by `cleanedPath := filepath.Clean(path)`. -/
def cleanedReqPath (reqPath : String) : String :=
  filepathClean (trimLeadingSlash reqPath)

/-- Line 131 of the handler: `fullPath := filepath.Join(rootDir, cleanedPath)` —
the complete path resolver from request path to filesystem path. -/
def resolvePath (rootDir reqPath : String) : String :=
  filepathJoin rootDir (cleanedReqPath reqPath)

/-! ## URL and HTML escaping (`net/url`, `html`) -/

/-- The ASCII apostrophe character (U+0027), written numerically. -/
def aposChar : Char := Char.ofNat 39

/-- The ASCII double-quote character (U+0022), written numerically. -/
def quoteChar : Char := Char.ofNat 34

/-- The one-character string holding an apostrophe. -/
def aposS : String := String.mk [aposChar]

/-- Uppercase hexadecimal digit, as in Go `net/url`'s `upperhex` table. -/
def hexDigit (n : Nat) : Char :=
  if n < 10 then Char.ofNat (48 + n) else Char.ofNat (55 + n)

/-- The UTF-8 encoding of a character, as the list of its byte values;
Go strings are byte strings and `url.PathEscape` escapes byte by byte. -/
def utf8Bytes (c : Char) : List Nat :=
  let n := c.toNat
  if n < 128 then [n]
  else if n < 2048 then [192 + n / 64, 128 + n % 64]
  else if n < 65536 then [224 + n / 4096, 128 + (n / 64) % 64, 128 + n % 64]
  else [240 + n / 262144, 128 + (n / 4096) % 64, 128 + (n / 64) % 64, 128 + n % 64]

/-- Characters an ASCII byte may stand for that Go's
`shouldEscape(c, encodePathSegment)` leaves unescaped: alphanumerics, the
unreserved marks `- _ . ~`, and the sub-delims `$ & + : = @` (while
`/ ; , ?` and everything else are escaped). -/
def isPathSegByte (c : Char) : Bool :=
  ('a' ≤ c && c ≤ 'z') || ('A' ≤ c && c ≤ 'Z') || ('0' ≤ c && c ≤ '9') ||
  c = '-' || c = '_' || c = '.' || c = '~' ||
  c = '$' || c = '&' || c = '+' || c = ':' || c = '=' || c = '@'

/-- The percent-escaping `%XX` of one byte value, uppercase hex. -/
def pctByte (b : Nat) : List Char :=
  ['%', hexDigit (b / 16), hexDigit (b % 16)]

/-- `url.PathEscape` acting on one character: kept verbatim when its (single,
ASCII) byte needs no escaping, otherwise each UTF-8 byte is percent-escaped.
Every byte of a multi-byte character is ≥ 128 and so is always escaped,
matching Go's byte-wise loop. -/
def pathEscapeChar (c : Char) : List Char :=
  if isPathSegByte c then [c]
  else (utf8Bytes c).flatMap pctByte

/-- `url.PathEscape` over a character list. -/
def pathEscapeChars : List Char → List Char
  | [] => []
  | c :: cs => pathEscapeChar c ++ pathEscapeChars cs

/-- Go `url.PathEscape`: escape a string so it can be placed inside a URL
path segment. -/
def urlPathEscape (s : String) : String := String.mk (pathEscapeChars s.data)

/-- `html.EscapeString` acting on one character: the five reserved HTML
characters `& ' < > "` become entities, all others are kept. -/
def escapeChar (c : Char) : List Char :=
  if c = '&' then "&amp;".data
  else if c = aposChar then "&#39;".data
  else if c = '<' then "&lt;".data
  else if c = '>' then "&gt;".data
  else if c = quoteChar then "&#34;".data
  else [c]

/-- `html.EscapeString` over a character list. -/
def escapeChars : List Char → List Char
  | [] => []
  | c :: cs => escapeChar c ++ escapeChars cs

/-- Go `html.EscapeString`: escape the HTML-reserved characters. -/
def htmlEscapeString (s : String) : String := String.mk (escapeChars s.data)

/-! ## Request/response model

The handler's interactions with the operating system (`os.Open`,
`File.Stat`, `os.ReadDir`, and `sendFile`'s second `os.Open`) are modelled
as explicit results passed in, so that each call can succeed or fail
independently, exactly as the Go error checks allow. Responses record the
status code, headers and body; `log.Printf` calls on error paths are
modelled as a list of logged messages. -/

/-- One directory child as returned by `os.ReadDir`: its name and whether
it is a directory. -/
structure DirEnt where
  name : String
  isDir : Bool
deriving DecidableEq

/-- The `os.FileInfo` fields the handler reads: `Name()`, `Size()`, `IsDir()`. -/
structure FileMeta where
  name : String
  size : Nat
  isDir : Bool
deriving DecidableEq

/-- A response body: raw bytes for file downloads, text for HTML/errors. -/
inductive Body where
  | bytesB (bs : List Nat)
  | textB (s : String)
deriving DecidableEq

/-- The byte length of a body (text taken as UTF-8, as Go writes it). -/
def bodyLen : Body → Nat
  | .bytesB bs => bs.length
  | .textB s => s.utf8ByteSize

/-- An HTTP response: status code, headers in order set, body. -/
structure Resp where
  status : Nat
  headers : List (String × String)
  body : Body
deriving DecidableEq

/-- Go `http.Error(w, msg, code)`: plain-text headers, the given status,
and the message plus a newline as body. -/
def httpError (msg : String) (status : Nat) : Resp :=
  { status := status
    headers := [("Content-Type", "text/plain; charset=utf-8"),
                ("X-Content-Type-Options", "nosniff")]
    body := .textB (msg ++ "\n") }

/-- First header value set under the given key. -/
def getHeader (r : Resp) (k : String) : Option String :=
  (r.headers.find? (fun p => p.1 == k)).map (fun p => p.2)

/-! ## `listDir` (lines 180–222): the directory listing -/

/-- One entry of the template data's `Files` slice (`FileInfo` in `listDir`):
URL-encoded link target, HTML-escaped display name, directory flag. -/
structure ChildFileInfo where
  url : String
  name : String
  isDir : Bool
deriving DecidableEq

/-- The template data built by `listDir` (lines 195–215). -/
structure ListingData where
  relPath : String
  parentPath : String
  hasParent : Bool
  files : List ChildFileInfo
deriving DecidableEq

/-- Lines 195–215 of `listDir`: the view model. `RelPath` is the
HTML-escaped relative path, `HasParent` is `relPath != ""`, `ParentPath`
is the URL-escaped `filepath.Dir` of the relative path, and each child
gets the URL-escaped join of the relative path and its name plus its
HTML-escaped display name. -/
def buildListingData (entries : List DirEnt) (relPath : String) : ListingData :=
  { relPath := htmlEscapeString relPath
    hasParent := relPath ≠ ""
    parentPath := urlPathEscape (toSlash (filepathDir relPath))
    files := entries.map (fun e =>
      { url := urlPathEscape (toSlash (filepathJoin relPath e.name))
        name := htmlEscapeString e.name
        isDir := e.isDir }) }

/-- The `<li>` the template (line 55) renders for one child. `html/template`
HTML-escapes the interpolated `.Name` once more in text context (the field
already holds `html.EscapeString` of the raw name); the `href` attribute
receives the `.URL` field. -/
def renderChildLi (c : ChildFileInfo) : String :=
  "<li><a href=\"" ++ c.url ++ "\">" ++
  (if c.isDir then "<dir>" ++ htmlEscapeString c.name ++ "</dir>"
   else "<file>" ++ htmlEscapeString c.name ++ "</file>") ++
  "</a></li>"

/-- The parent-directory `<li>` of template line 53: rendered exactly when
`HasParent` holds, with `ParentPath` as the link target. -/
def renderParentLi (d : ListingData) : String :=
  if d.hasParent then
    "<li><a href=\"" ++ d.parentPath ++ "\">.. (Parent Directory)</a></li>"
  else ""

/-- How many parent-directory list items the template emits:
`{{if .HasParent}}` guards a single `<li>`. -/
def parentLinkCount (d : ListingData) : Nat :=
  if d.hasParent then 1 else 0

/-- The rendered listing page (template lines 39–60, R1_EN variant).
Interpolations in text context are HTML-escaped by `html/template`;
insignificant template whitespace is kept approximately. -/
def renderListing (d : ListingData) : String :=
  "\n<html>\n<head>\n    <meta charset=\"UTF-8\">\n    <title>File Server - " ++
  htmlEscapeString d.relPath ++
  "</title>\n    <style>\n        li \x7b font-family: monospace; \x7d\n        dir \x7b color: blue; \x7d\n        file \x7b color: green; \x7d\n    </style>\n</head>\n<body>\n    <h1>Directory Listing: " ++
  htmlEscapeString d.relPath ++
  "</h1>\n    <ul>\n        " ++ renderParentLi d ++
  String.join (d.files.map (fun c => "\n            " ++ renderChildLi c)) ++
  "\n    </ul>\n</body>\n</html>\n"

/-- `listDir` (R1_EN, lines 180–222), with the `os.ReadDir` outcome passed
in: a read failure logs the cause and answers `403 Forbidden`; otherwise
the page is rendered with a `text/html` content type and status 200. -/
def listDirGo (readDirRes : Except String (List DirEnt)) (relPath : String) :
    Resp × List String :=
  match readDirRes with
  | .error e => (httpError "403 Forbidden" 403, ["Directory read error: " ++ e])
  | .ok entries =>
    ({ status := 200
       headers := [("Content-Type", "text/html; charset=utf-8")]
       body := .textB (renderListing (buildListingData entries relPath)) }, [])

/-- `listDir` of the `part_000` variant (lines 163–202): identical view
model, but a read failure answers status 500 with the Chinese error text. -/
def listDirCN (readDirRes : Except String (List DirEnt)) (relPath : String) :
    Resp × List String :=
  match readDirRes with
  | .error e => (httpError "目录不可读" 500, ["读取目录失败: " ++ e])
  | .ok entries =>
    ({ status := 200
       headers := [("Content-Type", "text/html; charset=utf-8")]
       body := .textB (renderListing (buildListingData entries relPath)) }, [])

/-! ## `sendFile` (lines 225–246): the file download -/

/-- `sendFile`: re-opens the file path (outcome passed in as the content it
would stream); a failed open logs the cause and answers 404. On success the
download headers are set — `Content-Disposition` with the
`url.PathEscape`d name in both the quoted and the `filename*=UTF-8''`
extended form, `Content-Type: application/octet-stream`, and
`Content-Length` from the size obtained by the dispatcher's stat — and the
file bytes are copied as the body. -/
def sendFileGo (openRes : Except String (List Nat)) (fileName : String)
    (fileSize : Nat) : Resp × List String :=
  match openRes with
  | .error e => (httpError "404 Not Found" 404, ["File open error: " ++ e])
  | .ok content =>
    let encodedName := urlPathEscape fileName
    ({ status := 200
       headers :=
         [("Content-Disposition",
           "attachment; filename=\"" ++ encodedName ++ "\"; filename*=UTF-8" ++
             aposS ++ aposS ++ encodedName),
          ("Content-Type", "application/octet-stream"),
          ("Content-Length", toString fileSize)]
       body := .bytesB content }, [])

/-! ## The request handler (lines 117–159) -/

/-- The outcomes of the four operating-system calls one request can make:
the dispatcher's `os.Open` and `File.Stat`, `listDir`'s `os.ReadDir`, and
`sendFile`'s second `os.Open` (with the content it would stream). Each can
fail independently — the filesystem may change between calls. -/
structure ReqOracle where
  openRes : Except String Unit
  statRes : Except String FileMeta
  readDirRes : Except String (List DirEnt)
  openRes2 : Except String (List Nat)

/-- The HTTP handler body (lines 128–158): sanitize the path, open the
target (failure → 404, cause logged), stat it (failure → 500, cause
logged), then dispatch to `listDir` for directories (with the cleaned
relative path) or `sendFile` for files (with the stat's name and size). -/
def handle (o : ReqOracle) (reqPath : String) : Resp × List String :=
  let cleanedPath := cleanedReqPath reqPath
  match o.openRes with
  | .error e => (httpError "404 Not Found" 404, ["File open failed: " ++ e])
  | .ok _ =>
    match o.statRes with
    | .error e =>
      (httpError "500 Internal Server Error" 500, ["File stat failed: " ++ e])
    | .ok m =>
      if m.isDir then listDirGo o.readDirRes cleanedPath
      else sendFileGo o.openRes2 m.name m.size

/-! ## A static filesystem: the handler when the tree does not change -/

/-- A filesystem entry: a regular file with its byte content, or a
directory with its children. -/
inductive FsEntry where
  | file (content : List Nat)
  | dir (entries : List DirEnt)
deriving DecidableEq

/-- A static filesystem: which entry, if any, each absolute path holds. -/
def FS : Type := String → Option FsEntry

/-- The oracle a static filesystem induces for the resolved path: open
succeeds iff the entry exists, stat reports the file's exact byte count
(and `filepath.Base` of the path as its name), and the second open streams
the same content. -/
def oracleOf (fs : FS) (p : String) : ReqOracle :=
  match fs p with
  | none => ⟨.error "no such file or directory", .error "stat failed",
             .error "read failed", .error "no such file or directory"⟩
  | some (.file content) =>
      ⟨.ok (), .ok ⟨filepathBase p, content.length, false⟩,
       .error "not a directory", .ok content⟩
  | some (.dir entries) =>
      ⟨.ok (), .ok ⟨filepathBase p, 0, true⟩, .ok entries,
       .error "is a directory"⟩

/-- The full request pipeline over a static filesystem. -/
def handleFs (fs : FS) (rootDir reqPath : String) : Resp × List String :=
  handle (oracleOf fs (resolvePath rootDir reqPath)) reqPath

/-- A plain path segment: nonempty, not a dot element, and slash-free —
exactly the segments `filepath.Clean` copies verbatim, and the only names
`os.ReadDir` can return for directory children. -/
def plainSeg (s : String) : Prop :=
  s ≠ "" ∧ s ≠ "." ∧ s ≠ ".." ∧ '/' ∉ s.data

instance : DecidablePred plainSeg := fun s => by
  unfold plainSeg
  infer_instance

/-- Whether `filepath.Clean`'s element loop keeps a segment as-is rather
than skipping it: empty and `.` segments are skipped. -/
def keepSeg (s : String) : Bool :=
  !(s == "" || s == ".")

/-! ## Evaluation checks on concrete inputs -/

example : filepathClean "" = "." := by decide
example : filepathClean "/" = "/" := by decide
example : filepathClean "a/b/../c" = "a/c" := by decide
example : filepathClean "/a/.." = "/" := by decide
example : filepathClean "../../etc/passwd" = "../../etc/passwd" := by decide
example : filepathClean "a//b/./" = "a/b" := by decide
example : filepathClean "a/../.." = ".." := by decide
example : filepathJoin "/srv/share" "docs" = "/srv/share/docs" := by decide
example : resolvePath "/srv/share" "/../../etc/passwd" = "/etc/passwd" := by decide
example : resolvePath "/srv/share" "/" = "/srv/share" := by decide
example : filepathDir "a/b" = "a" := by decide
example : filepathDir "sub" = "." := by decide
example : filepathBase "/srv/f.txt" = "f.txt" := by decide
example : urlPathEscape "a/b" = "a%2Fb" := by decide
example : urlPathEscape "f.txt" = "f.txt" := by decide
example : urlPathEscape "a b" = "a%20b" := by decide
example : htmlEscapeString "<script>.txt" = "&lt;script&gt;.txt" := by decide

/-! ## Helper lemmas -/

/-- `filepath.Clean` never returns the empty string: the empty input maps
to `"."`, rooted outputs start with `'/'`, and an emptied relative path
collapses to `"."`. -/
theorem filepathClean_ne_empty (s : String) : filepathClean s ≠ "" := by
  unfold filepathClean
  dsimp only
  split_ifs with h1 h2 h3
  · simp
  · intro h
    have := congrArg String.data h
    rw [String.data_append] at this
    simp at this
  · simp
  · exact h3

/-- `html.EscapeString` output never contains a raw `'<'`. -/
theorem escapeChar_no_lt (c : Char) : '<' ∉ escapeChar c := by
  unfold escapeChar
  split_ifs with h1 h2 h3 h4 h5 <;> simp_all
  exact fun h => h3 h.symm

/-- `html.EscapeString` output never contains a raw `'>'`. -/
theorem escapeChar_no_gt (c : Char) : '>' ∉ escapeChar c := by
  unfold escapeChar
  split_ifs with h1 h2 h3 h4 h5 <;> simp_all
  exact fun h => h4 h.symm

theorem escapeChars_no_lt (l : List Char) : '<' ∉ escapeChars l := by
  induction l with
  | nil => simp [escapeChars]
  | cons c cs ih =>
    simp only [escapeChars, List.mem_append]
    rintro (h | h)
    · exact escapeChar_no_lt c h
    · exact ih h

theorem escapeChars_no_gt (l : List Char) : '>' ∉ escapeChars l := by
  induction l with
  | nil => simp [escapeChars]
  | cons c cs ih =>
    simp only [escapeChars, List.mem_append]
    rintro (h | h)
    · exact escapeChar_no_gt c h
    · exact ih h

/-! ## Claim theorems -/

/-- C2 (counterexample): the claim says the root listing contains no
parent-directory link, but for the root request path `"/"` the cleaned
relative path is `"."` (because `filepath.Clean("")` returns `"."`), which
is non-empty, so `HasParent` is true: the template renders exactly one
parent-directory link, whose target is `"."`. -/
theorem c2_root_parent_link_counterexample :
    parentLinkCount (buildListingData [] (cleanedReqPath "/")) = 1 ∧
    (buildListingData [] (cleanedReqPath "/")).hasParent = true ∧
    (buildListingData [] (cleanedReqPath "/")).parentPath = "." ∧
    renderParentLi (buildListingData [] (cleanedReqPath "/")) ≠ "" := by
  decide

/-- C2 (amended): the cleaned relative path of a request is never empty
(`filepath.Clean` never returns `""`), so every directory listing — the
root listing included — contains exactly one parent-directory link; its
target is the URL-escape of `filepath.Dir` of the current relative path
(which is `"."` for the root). -/
theorem c2_parent_link (req : String) (entries : List DirEnt) :
    (buildListingData entries (cleanedReqPath req)).hasParent = true ∧
    parentLinkCount (buildListingData entries (cleanedReqPath req)) = 1 ∧
    (buildListingData entries (cleanedReqPath req)).parentPath =
      urlPathEscape (toSlash (filepathDir (cleanedReqPath req))) := by
  have h : cleanedReqPath req ≠ "" := filepathClean_ne_empty _
  refine ⟨?_, ?_, rfl⟩
  · simp [buildListingData, h]
  · simp [parentLinkCount, buildListingData, h]

/-- C3: for an existing regular file, the response carries
`Content-Length` equal to the file's byte count as reported by the
dispatcher's stat, and the streamed body has exactly that many bytes. -/
theorem c3_content_length (fs : FS) (root req : String) (content : List Nat)
    (h : fs (resolvePath root req) = some (FsEntry.file content)) :
    (handleFs fs root req).1.status = 200 ∧
    getHeader (handleFs fs root req).1 "Content-Length" =
      some (toString content.length) ∧
    bodyLen (handleFs fs root req).1.body = content.length := by
  unfold handleFs oracleOf
  rw [h]
  exact ⟨rfl, rfl, rfl⟩

/-- C3 witness: a one-file filesystem served at `/root`, requested as
`/f.bin`, with a three-byte file. -/
theorem c3_content_length_witness :
    (handleFs (fun p => if p = "/root/f.bin" then some (FsEntry.file [7, 8, 9]) else none)
        "/root" "/f.bin").1.status = 200 ∧
    getHeader (handleFs (fun p => if p = "/root/f.bin" then some (FsEntry.file [7, 8, 9]) else none)
        "/root" "/f.bin").1 "Content-Length" = some (toString ([7, 8, 9] : List Nat).length) ∧
    bodyLen (handleFs (fun p => if p = "/root/f.bin" then some (FsEntry.file [7, 8, 9]) else none)
        "/root" "/f.bin").1.body = ([7, 8, 9] : List Nat).length :=
  c3_content_length _ "/root" "/f.bin" [7, 8, 9] (by decide)

/-- C4: every file response carries a `Content-Disposition` header that
marks it as an attachment and holds the (URL-escaped) filename both in the
simple quoted `filename="…"` form and in the extended
`filename*=UTF-8''…` form, for every file name. -/
theorem c4_content_disposition (name : String) (size : Nat) (content : List Nat) :
    getHeader (sendFileGo (.ok content) name size).1 "Content-Disposition" =
      some ("attachment; filename=\"" ++ urlPathEscape name ++
        "\"; filename*=UTF-8" ++ aposS ++ aposS ++ urlPathEscape name) :=
  rfl

/-- C5: the dispatcher answers `404 Not Found` (logging the cause) exactly
when the open fails, `500 Internal Server Error` (logging the cause) when
the open succeeds but the stat fails, and otherwise delegates entirely to
`listDir` or `sendFile` — it produces no other error response itself. -/
theorem c5_dispatcher_errors (req e : String) (st : Except String FileMeta)
    (rd : Except String (List DirEnt)) (o2 : Except String (List Nat))
    (m : FileMeta) :
    handle ⟨.error e, st, rd, o2⟩ req =
      (httpError "404 Not Found" 404, ["File open failed: " ++ e]) ∧
    handle ⟨.ok (), .error e, rd, o2⟩ req =
      (httpError "500 Internal Server Error" 500, ["File stat failed: " ++ e]) ∧
    handle ⟨.ok (), .ok m, rd, o2⟩ req =
      (if m.isDir then listDirGo rd (cleanedReqPath req)
       else sendFileGo o2 m.name m.size) :=
  ⟨rfl, rfl, rfl⟩

/-- C6: when the directory read fails, the R1_EN `listDir` answers
`403 Forbidden` and the part_000 variant answers status 500 — both within
the 403/500 range the claim allows — the cause is logged, and no listing
body is rendered: the body is the fixed error text. -/
theorem c6_unreadable_dir (e relPath : String) :
    listDirGo (.error e) relPath =
      (httpError "403 Forbidden" 403, ["Directory read error: " ++ e]) ∧
    ((listDirGo (.error e) relPath).1.status = 403 ∨
     (listDirGo (.error e) relPath).1.status = 500) ∧
    (listDirGo (.error e) relPath).1.body = .textB "403 Forbidden\n" ∧
    listDirCN (.error e) relPath =
      (httpError "目录不可读" 500, ["读取目录失败: " ++ e]) ∧
    (listDirCN (.error e) relPath).1.status = 500 :=
  ⟨rfl, Or.inl rfl, rfl, rfl, rfl⟩

/-- C7: every child in the listing view model gets the HTML-escaped
display name and, as link target, the URL-escape of the relative path
joined with the child name; and HTML-escaped text (applied once by
`listDir` and once more by the template on interpolation) never contains a
raw `<` or `>`, so a name such as `<script>.txt` can never render as
markup. -/
theorem c7_listing_escaping (relPath : String) (entries : List DirEnt)
    (name : String) :
    (buildListingData entries relPath).files =
      entries.map (fun e =>
        { url := urlPathEscape (toSlash (filepathJoin relPath e.name))
          name := htmlEscapeString e.name
          isDir := e.isDir }) ∧
    '<' ∉ (htmlEscapeString name).data ∧
    '>' ∉ (htmlEscapeString name).data ∧
    '<' ∉ (htmlEscapeString (htmlEscapeString name)).data ∧
    '>' ∉ (htmlEscapeString (htmlEscapeString name)).data :=
  ⟨rfl, escapeChars_no_lt _, escapeChars_no_gt _,
   escapeChars_no_lt _, escapeChars_no_gt _⟩

/-- C8: every file response has `Content-Type: application/octet-stream`,
for every file name (no MIME type is derived from the extension) and
every content. -/
theorem c8_content_type (name : String) (size : Nat) (content : List Nat) :
    getHeader (sendFileGo (.ok content) name size).1 "Content-Type" =
      some "application/octet-stream" :=
  rfl

/-- C10: `sendFile` opens the path a second time; when that second open
fails, the response is `404 Not Found` (with the cause logged) even though
the dispatcher's own open and stat both succeeded in the same request with
a regular-file result. -/
theorem c10_second_open_404 (req nm e : String) (sz : Nat)
    (rd : Except String (List DirEnt)) :
    handle ⟨.ok (), .ok ⟨nm, sz, false⟩, rd, .error e⟩ req =
      (httpError "404 Not Found" 404, ["File open error: " ++ e]) :=
  rfl

/-! ## Segment-level lemmas about `splitSegs`, `joinSegs` and the clean loop -/

theorem splitSegs_cons_slash (l : List Char) :
    splitSegs ('/' :: l) = "" :: splitSegs l := rfl

theorem joinSegs_cons_cons (s t : String) (rest : List String) :
    joinSegs (s :: t :: rest) = s ++ "/" ++ joinSegs (t :: rest) := rfl

theorem splitSegs_ne_nil (l : List Char) : splitSegs l ≠ [] := by
  match l with
  | [] => simp [splitSegs]
  | c :: rest =>
    unfold splitSegs
    split_ifs
    · simp
    · have := splitSegs_ne_nil rest
      match h : splitSegs rest with
      | [] => exact absurd h this
      | s :: ss => simp

theorem splitSegs_cons_ne (c : Char) (l : List Char) (hc : ¬ c = '/') :
    ∃ s ss, splitSegs l = s :: ss ∧
      splitSegs (c :: l) = String.mk (c :: s.data) :: ss := by
  match h : splitSegs l, splitSegs_ne_nil l with
  | s :: ss, _ =>
    refine ⟨s, ss, rfl, ?_⟩
    unfold splitSegs
    rw [if_neg hc, h]

theorem splitSegs_append_slash (xs ys : List Char) :
    splitSegs (xs ++ '/' :: ys) = splitSegs xs ++ splitSegs ys := by
  induction xs with
  | nil => simp [splitSegs_cons_slash, splitSegs]
  | cons c xs ih =>
    by_cases hc : c = '/'
    · subst hc
      rw [List.cons_append, splitSegs_cons_slash, splitSegs_cons_slash, ih,
        List.cons_append]
    · obtain ⟨s, ss, hs, hcons⟩ := splitSegs_cons_ne c (xs ++ '/' :: ys) hc
      obtain ⟨t, ts, ht, hcons'⟩ := splitSegs_cons_ne c xs hc
      rw [ih, ht] at hs
      injection hs with h1 h2
      subst h1
      rw [List.cons_append, hcons, hcons', ← h2, List.cons_append]
      rfl

theorem splitSegs_slashFree (l : List Char) (h : ∀ c ∈ l, ¬ c = '/') :
    splitSegs l = [String.mk l] := by
  induction l with
  | nil => simp [splitSegs]
  | cons c rest ih =>
    obtain ⟨s, ss, hs, hcons⟩ := splitSegs_cons_ne c rest (h c (by simp))
    rw [ih (fun x hx => h x (by simp [hx]))] at hs
    injection hs with h1 h2
    subst h2
    rw [hcons, ← h1]

theorem mem_splitSegs_no_slash (l : List Char) (s : String)
    (h : s ∈ splitSegs l) : '/' ∉ s.data := by
  induction l generalizing s with
  | nil =>
    simp [splitSegs] at h
    subst h
    simp
  | cons c rest ih =>
    by_cases hc : c = '/'
    · subst hc
      rw [splitSegs_cons_slash] at h
      rcases List.mem_cons.mp h with h | h
      · subst h; simp
      · exact ih s h
    · obtain ⟨t, ts, ht, hcons⟩ := splitSegs_cons_ne c rest hc
      rw [hcons] at h
      rcases List.mem_cons.mp h with h | h
      · subst h
        intro hmem
        rcases List.mem_cons.mp hmem with h' | h'
        · exact hc h'.symm
        · exact ih t (by rw [ht]; simp) h'
      · exact ih s (by rw [ht]; simp [h])

theorem joinSegs_append (a b : List String) (ha : a ≠ []) (hb : b ≠ []) :
    joinSegs (a ++ b) = joinSegs a ++ "/" ++ joinSegs b := by
  induction a with
  | nil => exact absurd rfl ha
  | cons s a ih =>
    match a with
    | [] =>
      match b with
      | [] => exact absurd rfl hb
      | t :: bs => rfl
    | s' :: a' =>
      rw [List.cons_append, List.cons_append, joinSegs_cons_cons,
        ← List.cons_append, ih (by simp), joinSegs_cons_cons]
      simp [String.ext_iff, String.data_append]

theorem splitSegs_joinSegs (segs : List String) (hne : segs ≠ [])
    (h : ∀ s ∈ segs, '/' ∉ s.data) :
    splitSegs (joinSegs segs).data = segs := by
  induction segs with
  | nil => exact absurd rfl hne
  | cons s rest ih =>
    match rest with
    | [] =>
      show splitSegs s.data = [s]
      rw [splitSegs_slashFree s.data (fun c hc heq => h s (by simp) (heq ▸ hc))]
    | t :: ts =>
      rw [joinSegs_cons_cons]
      have hdata : (s ++ "/" ++ joinSegs (t :: ts)).data =
          s.data ++ '/' :: (joinSegs (t :: ts)).data := by
        simp [String.data_append]
      rw [hdata, splitSegs_append_slash,
        splitSegs_slashFree s.data (fun c hc heq => h s (by simp) (heq ▸ hc)),
        ih (by simp) (fun x hx => h x (by simp [hx]))]
      rfl

theorem slash_mem_joinSegs (segs : List String) (h : 2 ≤ segs.length) :
    '/' ∈ (joinSegs segs).data := by
  match segs, h with
  | s :: t :: rest, _ =>
    rw [joinSegs_cons_cons]
    simp [String.data_append]

theorem cleanStep_skip (r : Bool) (acc : List String) (s : String)
    (h : s = "" ∨ s = ".") : cleanStep r acc s = acc := by
  unfold cleanStep
  rw [if_pos h]

theorem cleanStep_push (r : Bool) (acc : List String) (s : String)
    (h1 : ¬ (s = "" ∨ s = ".")) (h2 : ¬ s = "..") : cleanStep r acc s = s :: acc := by
  unfold cleanStep
  rw [if_neg h1, if_neg h2]

theorem foldl_cleanStep_no_dotdot (r : Bool) (segs : List String)
    (h : ∀ s ∈ segs, ¬ s = "..") :
    ∀ acc, List.foldl (cleanStep r) acc segs = (segs.filter keepSeg).reverse ++ acc := by
  induction segs with
  | nil => intro acc; simp
  | cons s rest ih =>
    intro acc
    rw [List.foldl_cons]
    by_cases hs : s = "" ∨ s = "."
    · rw [cleanStep_skip r acc s hs, ih (fun x hx => h x (by simp [hx])) acc]
      have hk : keepSeg s = false := by
        unfold keepSeg
        rcases hs with h' | h' <;> simp [h']
      simp [List.filter_cons, hk]
    · rw [cleanStep_push r acc s hs (h s (by simp)),
        ih (fun x hx => h x (by simp [hx])) (s :: acc)]
      have hk : keepSeg s = true := by
        push_neg at hs
        unfold keepSeg
        simp [hs.1, hs.2]
      simp [List.filter_cons, hk]

theorem foldl_cleanStep_dots (k : Nat) :
    ∀ j, List.foldl (cleanStep false) (List.replicate j "..") (List.replicate k "..") =
      List.replicate (k + j) ".." := by
  induction k with
  | zero => intro j; simp
  | succ k ih =>
    intro j
    rw [List.replicate_succ, List.foldl_cons]
    have hstep : cleanStep false (List.replicate j "..") ".." =
        List.replicate (j + 1) ".." := by
      match j with
      | 0 => decide
      | j + 1 =>
        rw [List.replicate_succ]
        simp [cleanStep, List.replicate_succ]
    rw [hstep, ih (j + 1)]
    congr 1
    omega

theorem filter_keepSeg_plain (l : List String) (h : ∀ s ∈ l, plainSeg s) :
    l.filter keepSeg = l := by
  refine List.filter_eq_self.mpr (fun s hs => ?_)
  have h1 := (h s hs).1
  have h2 := (h s hs).2.1
  unfold keepSeg
  simp [h1, h2]

theorem cleanStack_inv (r : Bool) (segs : List String)
    (hs : ∀ x ∈ segs, '/' ∉ x.data) :
    ∀ pls k, (∀ x ∈ pls, plainSeg x) → (r = true → k = 0) →
    ∃ pls' k', (∀ x ∈ pls', plainSeg x) ∧ (r = true → k' = 0) ∧
      List.foldl (cleanStep r) (pls ++ List.replicate k "..") segs =
        pls' ++ List.replicate k' ".." := by
  induction segs with
  | nil =>
    intro pls k hp hk
    exact ⟨pls, k, hp, hk, by simp⟩
  | cons s rest ih =>
    intro pls k hp hk
    have hs' : ∀ x ∈ rest, '/' ∉ x.data := fun x hx => hs x (by simp [hx])
    rw [List.foldl_cons]
    by_cases h1 : s = "" ∨ s = "."
    · rw [cleanStep_skip r _ s h1]
      exact ih hs' pls k hp hk
    · by_cases h2 : s = ".."
      · subst h2
        match pls, hp with
        | [], _ =>
          match k, hk with
          | 0, _ =>
            have hstep : cleanStep r ([] ++ List.replicate 0 "..") ".." =
                if r then [] else [".."] := by
              unfold cleanStep
              rw [if_neg h1, if_pos rfl]
              rfl
            rw [hstep]
            cases r
            · have h01 : ([".."] : List String) = [] ++ List.replicate 1 ".." := rfl
              rw [if_neg (by simp), h01]
              exact ih hs' [] 1 (by simp) (by simp)
            · rw [if_pos rfl]
              exact ih hs' [] 0 (by simp) (fun _ => rfl)
          | k + 1, hk =>
            have hstep : cleanStep r ([] ++ List.replicate (k + 1) "..") ".." =
                [] ++ List.replicate (k + 2) ".." := by
              rw [List.nil_append, List.replicate_succ]
              unfold cleanStep
              rw [if_neg h1, if_pos rfl]
              dsimp only
              rw [if_pos rfl, List.nil_append, List.replicate_succ,
                List.replicate_succ]
            rw [hstep]
            refine ih hs' [] (k + 2) (by simp) (fun hr => absurd (hk hr) (by omega))
        | p :: pls', hp =>
          have hpp : plainSeg p := hp p (by simp)
          have hstep : cleanStep r ((p :: pls') ++ List.replicate k "..") ".." =
              pls' ++ List.replicate k ".." := by
            rw [List.cons_append]
            unfold cleanStep
            rw [if_neg h1, if_pos rfl]
            dsimp only
            rw [if_neg hpp.2.2.1]
          rw [hstep]
          exact ih hs' pls' k (fun x hx => hp x (by simp [hx])) hk
      · rw [cleanStep_push r _ s h1 h2]
        have hps : plainSeg s :=
          ⟨fun h => h1 (Or.inl h), fun h => h1 (Or.inr h), h2, hs s (by simp)⟩
        have : s :: (pls ++ List.replicate k "..") =
            (s :: pls) ++ List.replicate k ".." := rfl
        rw [this]
        refine ih hs' (s :: pls) k (fun x hx => ?_) hk
        rcases List.mem_cons.mp hx with h | h
        · exact h ▸ hps
        · exact hp x h

/-- The shape of any `filepath.Clean` output: a rooted path of plain
segments, the path `"."`, or a relative path of some leading `..` elements
followed by plain segments. -/
theorem filepathClean_shape (s : String) :
    (∃ csegs, (∀ x ∈ csegs, plainSeg x) ∧
      filepathClean s = "/" ++ joinSegs csegs) ∨
    filepathClean s = "." ∨
    (∃ k pls, (∀ x ∈ pls, plainSeg x) ∧ 0 < k + pls.length ∧
      filepathClean s = joinSegs (List.replicate k ".." ++ pls)) := by
  by_cases hs : s = ""
  · right; left; simp [filepathClean, hs]
  · unfold filepathClean
    rw [if_neg hs]
    dsimp only
    cases hr : isRooted s.data
    · obtain ⟨pls, k, hp, -, hfold⟩ :=
        cleanStack_inv false (splitSegs s.data)
          (fun x hx => mem_splitSegs_no_slash _ x hx) [] 0 (by simp) (by simp)
      simp only [List.nil_append, List.replicate_zero] at hfold
      rw [hfold, List.reverse_append, List.reverse_replicate]
      by_cases hb : joinSegs (List.replicate k ".." ++ pls.reverse) = ""
      · right; left
        rw [if_neg (by simp), if_pos hb]
      · right; right
        refine ⟨k, pls.reverse, fun x hx => hp x (List.mem_reverse.mp hx), ?_, ?_⟩
        · by_contra hlt
          push_neg at hlt
          rw [List.length_reverse] at hlt
          have hk0 : k = 0 := by omega
          have hp0 : pls = [] := List.length_eq_zero.mp (by omega)
          rw [hp0, hk0] at hb
          exact hb rfl
        · rw [if_neg (by simp), if_neg hb]
    · obtain ⟨pls, k, hp, hk, hfold⟩ :=
        cleanStack_inv true (splitSegs s.data)
          (fun x hx => mem_splitSegs_no_slash _ x hx) [] 0 (by simp) (by simp)
      simp only [List.nil_append, List.replicate_zero] at hfold
      rw [hk rfl, List.replicate_zero, List.append_nil] at hfold
      left
      refine ⟨pls.reverse, fun x hx => hp x (List.mem_reverse.mp hx), ?_⟩
      rw [hfold, if_pos (by simp)]

theorem joinSegs_data_within (a b : List String) :
    (joinSegs a).data <+: (joinSegs (a ++ b)).data := by
  match a, b with
  | a, [] => simp
  | [], b => exact ⟨(joinSegs b).data, by simp [joinSegs]⟩
  | s :: a', t :: b' =>
    rw [joinSegs_append (s :: a') (t :: b') (by simp) (by simp)]
    refine ⟨'/' :: (joinSegs (t :: b')).data, ?_⟩
    simp [String.data_append]

theorem filter_splitSegs_joinSegs_plain (rsegs : List String)
    (hr : ∀ x ∈ rsegs, plainSeg x) :
    (splitSegs (joinSegs rsegs).data).filter keepSeg = rsegs ∧
    (∀ x ∈ splitSegs (joinSegs rsegs).data, ¬ x = "..") := by
  match rsegs with
  | [] => exact ⟨by decide, by decide⟩
  | s :: rest =>
    have hsj := splitSegs_joinSegs (s :: rest) (by simp)
      (fun x hx => (hr x hx).2.2.2)
    rw [hsj]
    exact ⟨filter_keepSeg_plain _ hr, fun x hx => (hr x hx).2.2.1⟩

/-- Joining a cleaned-shape suffix onto a root made of plain segments stays
under the root: `Clean(root + "/" + t)` keeps `root` as a prefix whenever
the segments of `t` contain no `..` element. -/
theorem clean_root_append_within (rsegs : List String) (t : String)
    (hr : ∀ x ∈ rsegs, plainSeg x)
    (ht : ∀ x ∈ splitSegs t.data, ¬ x = "..") :
    ("/" ++ joinSegs rsegs).data <+:
      (filepathClean (("/" ++ joinSegs rsegs) ++ "/" ++ t)).data := by
  have hdata : ((("/" ++ joinSegs rsegs) ++ "/") ++ t).data =
      '/' :: ((joinSegs rsegs).data ++ '/' :: t.data) := by
    simp [String.data_append]
  have hne : (("/" ++ joinSegs rsegs) ++ "/" ++ t) ≠ "" := by
    intro h
    have := congrArg String.data h
    rw [hdata] at this
    simp at this
  unfold filepathClean
  rw [if_neg hne]
  dsimp only
  rw [hdata, splitSegs_cons_slash, splitSegs_append_slash]
  have hroot : isRooted ('/' :: ((joinSegs rsegs).data ++ '/' :: t.data)) = true := rfl
  rw [hroot]
  obtain ⟨hfilter, hnodots⟩ := filter_splitSegs_joinSegs_plain rsegs hr
  have hfold := foldl_cleanStep_no_dotdot true
    ("" :: (splitSegs (joinSegs rsegs).data ++ splitSegs t.data))
    (by
      intro x hx
      rcases List.mem_cons.mp hx with h | h
      · subst h; decide
      · rcases List.mem_append.mp h with h | h
        · exact hnodots x h
        · exact ht x h) []
  rw [if_pos rfl, hfold]
  have hfc : ("" :: (splitSegs (joinSegs rsegs).data ++ splitSegs t.data)).filter
      keepSeg = rsegs ++ (splitSegs t.data).filter keepSeg := by
    rw [List.filter_cons]
    have : keepSeg "" = false := by decide
    rw [this]
    simp only [List.filter_append, hfilter, Bool.false_eq_true, if_false]
  rw [hfc, List.append_nil, List.reverse_reverse]
  have hsplit : ("/" ++ joinSegs (rsegs ++ (splitSegs t.data).filter keepSeg)).data =
      '/' :: (joinSegs (rsegs ++ (splitSegs t.data).filter keepSeg)).data := by
    simp [String.data_append]
  rw [hsplit]
  exact List.cons_prefix_cons.mpr ⟨rfl, joinSegs_data_within _ _⟩

/-- C1 (counterexample): the resolver does NOT keep every request inside
rootDirectory. `filepath.Clean` preserves leading `..` elements of a
relative path, so for root `/srv/share` the request `/../../etc/passwd`
resolves to `/etc/passwd`, which does not have the root as a prefix. -/
theorem c1_traversal_counterexample :
    resolvePath "/srv/share" "/../../etc/passwd" = "/etc/passwd" ∧
    ¬ (("/srv/share" : String).data <+:
        (resolvePath "/srv/share" "/../../etc/passwd").data) := by
  decide

/-- C1 (amended): for every request path whose cleaned relative form is
not `..` and does not begin with a `../` traversal step, the resolved
filesystem path does lie within rootDirectory (the root, an absolute path
of plain segments as produced by the startup symlink resolution, is a
prefix of it). Request paths that clean to a leading-`..` form — such as
`/../../etc/passwd` — escape the root at the resolver level. -/
theorem c1_within_root (rsegs : List String) (req : String)
    (hroot : ∀ x ∈ rsegs, plainSeg x)
    (h1 : ¬ cleanedReqPath req = "..")
    (h2 : ¬ ['.', '.', '/'] <+: (cleanedReqPath req).data) :
    ("/" ++ joinSegs rsegs).data <+:
      (resolvePath ("/" ++ joinSegs rsegs) req).data := by
  have hrootne : ("/" ++ joinSegs rsegs) ≠ "" := by
    intro h
    have := congrArg String.data h
    rw [String.data_append] at this
    simp at this
  unfold resolvePath filepathJoin
  rw [if_pos hrootne]
  apply clean_root_append_within rsegs (cleanedReqPath req) hroot
  unfold cleanedReqPath at h1 h2 ⊢
  rcases filepathClean_shape (trimLeadingSlash req) with
    ⟨csegs, hcs, heq⟩ | heq | ⟨k, pls, hpls, hkp, heq⟩
  · rw [heq]
    have hdata : ("/" ++ joinSegs csegs).data = '/' :: (joinSegs csegs).data := by
      simp [String.data_append]
    rw [hdata, splitSegs_cons_slash]
    intro x hx
    rcases List.mem_cons.mp hx with h | h
    · subst h; decide
    · exact (filter_splitSegs_joinSegs_plain csegs hcs).2 x h
  · rw [heq]
    intro x hx
    have hsp : splitSegs ("." : String).data = ["."] := by decide
    rw [hsp] at hx
    rcases List.mem_cons.mp hx with h | h
    · subst h; decide
    · simp at h
  · match k with
    | 0 =>
      rw [List.replicate_zero, List.nil_append] at heq
      rw [heq]
      have hne : pls ≠ [] := by
        intro h
        rw [h] at hkp
        simp at hkp
      rw [splitSegs_joinSegs pls hne (fun x hx => (hpls x hx).2.2.2)]
      exact fun x hx => (hpls x hx).2.2.1
    | k + 1 =>
      exfalso
      rw [List.replicate_succ, List.cons_append] at heq
      match hrest : List.replicate k ".." ++ pls with
      | [] =>
        rw [hrest] at heq
        exact h1 heq
      | y :: ys =>
        rw [hrest, joinSegs_cons_cons] at heq
        apply h2
        rw [heq]
        refine ⟨(joinSegs (y :: ys)).data, ?_⟩
        simp [String.data_append]

/-- C1 amended-claim witness: root `/srv/share` (as plain segments) and
the well-behaved request `/docs/a.txt`. -/
theorem c1_within_root_witness :
    ("/" ++ joinSegs ["srv", "share"]).data <+:
      (resolvePath ("/" ++ joinSegs ["srv", "share"]) "/docs/a.txt").data :=
  c1_within_root ["srv", "share"] "/docs/a.txt" (by decide) (by decide) (by decide)

/-! ## `url.PathEscape` lemmas -/

theorem char_toNat_lt (c : Char) : c.toNat < 1114112 := by
  have h := c.valid
  rcases h with h | ⟨h1, h2⟩
  · exact Nat.lt_trans h (by norm_num)
  · exact h2

theorem utf8Bytes_lt (c : Char) : ∀ b ∈ utf8Bytes c, b < 256 := by
  have hc := char_toNat_lt c
  unfold utf8Bytes
  dsimp only
  split_ifs with h1 h2 h3 <;> intro b hb <;> simp only [List.mem_cons,
    List.mem_singleton, List.not_mem_nil, or_false] at hb
  · omega
  · have hd : c.toNat / 64 < 32 := Nat.div_lt_of_lt_mul (by omega)
    have hm : c.toNat % 64 < 64 := Nat.mod_lt _ (by omega)
    rcases hb with hb | hb <;> omega
  · have hd : c.toNat / 4096 < 16 := Nat.div_lt_of_lt_mul (by omega)
    have hm1 : c.toNat / 64 % 64 < 64 := Nat.mod_lt _ (by omega)
    have hm2 : c.toNat % 64 < 64 := Nat.mod_lt _ (by omega)
    rcases hb with hb | hb | hb <;> omega
  · have hd : c.toNat / 262144 < 16 := Nat.div_lt_of_lt_mul (by omega)
    have hm1 : c.toNat / 4096 % 64 < 64 := Nat.mod_lt _ (by omega)
    have hm2 : c.toNat / 64 % 64 < 64 := Nat.mod_lt _ (by omega)
    have hm3 : c.toNat % 64 < 64 := Nat.mod_lt _ (by omega)
    rcases hb with hb | hb | hb | hb <;> omega

theorem hexDigit_ne_slash (n : Nat) (h : n < 16) : hexDigit n ≠ '/' := by
  interval_cases n <;> decide

theorem pctByte_no_slash (b : Nat) (h : b < 256) : '/' ∉ pctByte b := by
  unfold pctByte
  intro hm
  rcases List.mem_cons.mp hm with h' | h'
  · exact absurd h' (by decide)
  · rcases List.mem_cons.mp h' with h' | h'
    · exact hexDigit_ne_slash (b / 16) (Nat.div_lt_of_lt_mul (by omega)) h'.symm
    · rcases List.mem_cons.mp h' with h' | h'
      · exact hexDigit_ne_slash (b % 16) (Nat.mod_lt _ (by omega)) h'.symm
      · simp at h'

theorem pathEscapeChar_no_slash (c : Char) : '/' ∉ pathEscapeChar c := by
  unfold pathEscapeChar
  split_ifs with h
  · intro hm
    rcases List.mem_cons.mp hm with h' | h'
    · rw [← h'] at h
      exact absurd h (by decide)
    · simp at h'
  · intro hm
    rw [List.mem_flatMap] at hm
    obtain ⟨b, hb, hmem⟩ := hm
    exact pctByte_no_slash b (utf8Bytes_lt c b hb) hmem

theorem pathEscapeChars_no_slash (l : List Char) : '/' ∉ pathEscapeChars l := by
  induction l with
  | nil => simp [pathEscapeChars]
  | cons c cs ih =>
    simp only [pathEscapeChars, List.mem_append]
    rintro (h | h)
    · exact pathEscapeChar_no_slash c h
    · exact ih h

theorem pathEscapeChars_append (a b : List Char) :
    pathEscapeChars (a ++ b) = pathEscapeChars a ++ pathEscapeChars b := by
  induction a with
  | nil => simp [pathEscapeChars]
  | cons c cs ih =>
    show pathEscapeChar c ++ pathEscapeChars (cs ++ b) =
      (pathEscapeChar c ++ pathEscapeChars cs) ++ pathEscapeChars b
    rw [ih, List.append_assoc]

theorem pathEscape_slash_occurs (l : List Char) (h : '/' ∈ l) :
    ['%', '2', 'F'] <:+: pathEscapeChars l := by
  obtain ⟨xs, ys, rfl⟩ := List.append_of_mem h
  refine ⟨pathEscapeChars xs, pathEscapeChars ys, ?_⟩
  rw [pathEscapeChars_append]
  have hcons : pathEscapeChars ('/' :: ys) =
      ['%', '2', 'F'] ++ pathEscapeChars ys := by
    show pathEscapeChar '/' ++ pathEscapeChars ys = _
    rw [show pathEscapeChar '/' = ['%', '2', 'F'] by decide]
  rw [hcons, List.append_assoc]

theorem joinSegs_cons_data (s : String) (rest : List String) :
    ∃ t, (joinSegs (s :: rest)).data = s.data ++ t := by
  match rest with
  | [] => exact ⟨[], by simp [show joinSegs [s] = s from rfl]⟩
  | y :: ys =>
    refine ⟨'/' :: (joinSegs (y :: ys)).data, ?_⟩
    rw [joinSegs_cons_cons]
    simp [String.data_append]

theorem isRooted_append (l l' : List Char) (hne : l ≠ []) :
    isRooted (l ++ l') = isRooted l := by
  match l, hne with
  | c :: cs, _ => rfl

theorem mem_dots_plain (k : Nat) (pls : List String)
    (hp : ∀ x ∈ pls, plainSeg x) :
    ∀ x ∈ List.replicate k ".." ++ pls, x ≠ "" ∧ '/' ∉ x.data := by
  intro x hx
  rcases List.mem_append.mp hx with h | h
  · have := List.eq_of_mem_replicate h
    subst this
    exact ⟨by decide, by decide⟩
  · exact ⟨(hp x h).1, (hp x h).2.2.2⟩

/-- Joining one plain name onto a cleaned relative path (leading `..`
elements followed by plain segments) simply appends a segment, and the
result contains a separator. -/
theorem join_plain_segment (k : Nat) (pls : List String) (name : String)
    (hp : ∀ x ∈ pls, plainSeg x) (hn : plainSeg name) (hk : 0 < k + pls.length) :
    filepathJoin (joinSegs (List.replicate k ".." ++ pls)) name =
      joinSegs ((List.replicate k ".." ++ pls) ++ [name]) ∧
    '/' ∈ (joinSegs ((List.replicate k ".." ++ pls) ++ [name])).data := by
  have hlen2 : 2 ≤ ((List.replicate k ".." ++ pls) ++ [name]).length := by
    rw [List.length_append, List.length_append, List.length_replicate]
    simp only [List.length_singleton]
    omega
  have hslashmem : '/' ∈ (joinSegs ((List.replicate k ".." ++ pls) ++ [name])).data :=
    slash_mem_joinSegs _ hlen2
  refine ⟨?_, hslashmem⟩
  have hprops := mem_dots_plain k pls hp
  have hsegne : List.replicate k ".." ++ pls ≠ [] := by
    intro h
    have h2 := congrArg List.length h
    rw [List.length_append, List.length_replicate, List.length_nil] at h2
    omega
  match hsegs : List.replicate k ".." ++ pls, hsegne with
  | s₀ :: rest, _ =>
    have hs₀ : s₀ ≠ "" ∧ '/' ∉ s₀.data := by
      refine hprops s₀ ?_
      rw [hsegs]
      simp
    obtain ⟨t, hjdata⟩ := joinSegs_cons_data s₀ rest
    have hs₀data : s₀.data ≠ [] := by
      intro h
      exact hs₀.1 (by cases s₀; simp_all)
    have hrelne : joinSegs (s₀ :: rest) ≠ "" := by
      intro h
      have := congrArg String.data h
      rw [hjdata] at this
      simp only [String.data] at this
      exact hs₀data (List.append_eq_nil.mp this).1
    have hinputdata : (joinSegs (s₀ :: rest) ++ "/" ++ name).data =
        (joinSegs (s₀ :: rest)).data ++ '/' :: name.data := by
      simp [String.data_append]
    have hinputne : joinSegs (s₀ :: rest) ++ "/" ++ name ≠ "" := by
      intro h
      have := congrArg String.data h
      rw [hinputdata, hjdata] at this
      simp only [String.data] at this
      rw [List.append_assoc] at this
      exact hs₀data (List.append_eq_nil.mp this).1
    have hjdatane : (joinSegs (s₀ :: rest)).data ≠ [] := by
      rw [hjdata]
      intro h
      exact hs₀data (List.append_eq_nil.mp h).1
    have hrooted : isRooted ((joinSegs (s₀ :: rest)).data ++ '/' :: name.data) =
        false := by
      rw [isRooted_append _ _ hjdatane, hjdata, isRooted_append _ _ hs₀data]
      match hd : s₀.data, hs₀data with
      | c :: cs, _ =>
        have hc : ¬ c = '/' := by
          intro h
          exact hs₀.2 (by rw [hd, h]; simp)
        show (c == '/') = false
        simp [hc]
    unfold filepathJoin
    rw [if_pos hrelne, filepathClean, if_neg hinputne]
    dsimp only
    rw [hinputdata, hrooted]
    simp only [Bool.false_eq_true, if_false]
    rw [splitSegs_append_slash,
      splitSegs_joinSegs (s₀ :: rest) (by simp)
        (fun x hx => (hprops x (by rw [hsegs]; exact hx)).2),
      splitSegs_slashFree name.data (fun c hc heq => hn.2.2.2 (heq ▸ hc))]
    have hmk : String.mk name.data = name := rfl
    rw [hmk, ← hsegs, List.foldl_append, List.foldl_append]
    have hdots : List.foldl (cleanStep false) [] (List.replicate k "..") =
        List.replicate k ".." := by
      have := foldl_cleanStep_dots k 0
      simpa using this
    rw [hdots, foldl_cleanStep_no_dotdot false pls
        (fun x hx => (hp x hx).2.2.1) (List.replicate k ".."),
      filter_keepSeg_plain pls hp]
    have hpush : List.foldl (cleanStep false)
        (pls.reverse ++ List.replicate k "..") [name] =
        name :: (pls.reverse ++ List.replicate k "..") := by
      rw [List.foldl_cons, List.foldl_nil,
        cleanStep_push false _ name
          (by rintro (h | h)
              · exact hn.1 h
              · exact hn.2.1 h) hn.2.2.1]
    rw [hpush]
    have hrev : (name :: (pls.reverse ++ List.replicate k "..")).reverse =
        (List.replicate k ".." ++ pls) ++ [name] := by
      rw [List.reverse_cons, List.reverse_append, List.reverse_reverse,
        List.reverse_replicate]
    rw [hrev]
    have hbodyne : joinSegs ((List.replicate k ".." ++ pls) ++ [name]) ≠ "" := by
      intro h
      have := congrArg String.data h
      simp only [String.data] at this
      rw [this] at hslashmem
      simp at hslashmem
    rw [if_neg hbodyne, hsegs]

/-- C9: a listing child's link URL is the `url.PathEscape` of the whole
joined relative path as a single segment, so for any child of a non-root
directory (relative path = optional `..` elements plus plain segments, at
least one) the href contains the separator as `%2F` and no literal `/`. -/
theorem c9_child_url (k : Nat) (pls : List String) (name : String)
    (entries : List DirEnt)
    (hp : ∀ x ∈ pls, plainSeg x) (hn : plainSeg name) (hk : 0 < k + pls.length) :
    (buildListingData entries (joinSegs (List.replicate k ".." ++ pls))).files =
      entries.map (fun e =>
        { url := urlPathEscape (toSlash (filepathJoin
            (joinSegs (List.replicate k ".." ++ pls)) e.name))
          name := htmlEscapeString e.name
          isDir := e.isDir }) ∧
    ['%', '2', 'F'] <:+: (urlPathEscape (toSlash (filepathJoin
        (joinSegs (List.replicate k ".." ++ pls)) name))).data ∧
    '/' ∉ (urlPathEscape (toSlash (filepathJoin
        (joinSegs (List.replicate k ".." ++ pls)) name))).data := by
  obtain ⟨hjoin, hmem⟩ := join_plain_segment k pls name hp hn hk
  have hdata : (urlPathEscape (toSlash (filepathJoin
      (joinSegs (List.replicate k ".." ++ pls)) name))).data =
      pathEscapeChars (filepathJoin
        (joinSegs (List.replicate k ".." ++ pls)) name).data := rfl
  refine ⟨rfl, ?_, ?_⟩
  · rw [hdata, hjoin]
    exact pathEscape_slash_occurs _ hmem
  · rw [hdata]
    exact pathEscapeChars_no_slash _

/-- C9 witness: the child `f.txt` of the non-root directory `sub`. -/
theorem c9_child_url_witness :
    (buildListingData [⟨"f.txt", false⟩]
        (joinSegs (List.replicate 0 ".." ++ ["sub"]))).files =
      ([⟨"f.txt", false⟩] : List DirEnt).map (fun e =>
        { url := urlPathEscape (toSlash (filepathJoin
            (joinSegs (List.replicate 0 ".." ++ ["sub"])) e.name))
          name := htmlEscapeString e.name
          isDir := e.isDir }) ∧
    ['%', '2', 'F'] <:+: (urlPathEscape (toSlash (filepathJoin
        (joinSegs (List.replicate 0 ".." ++ ["sub"])) "f.txt"))).data ∧
    '/' ∉ (urlPathEscape (toSlash (filepathJoin
        (joinSegs (List.replicate 0 ".." ++ ["sub"])) "f.txt"))).data :=
  c9_child_url 0 ["sub"] "f.txt" [⟨"f.txt", false⟩]
    (by decide) (by decide) (by decide)
